import Mathlib

/-!
Verification of the retrieval-and-composition pipeline of `app/pipeline.py`
(ai-doctor-assistant): text normalization, tokenization, sliding-window
chunking, TF-IDF-like retrieval and the rule-based answer composer.

Python strings are modelled as `List Char` (`Str`), Python `int` page numbers
as `Nat`, and Python `float` scores as `ℝ` with `Real.log` for `math.log`.
-/

set_option maxRecDepth 40000

/-- Python strings are modelled as lists of characters. -/
abbrev Str := List Char

/-- The character class of Python's `\s` regex class and of `str.strip()` /
`str.split()` for ASCII text: space, tab, newline, carriage return,
vertical tab and form feed. -/
def pyIsSpace (c : Char) : Bool :=
  c == ' ' || c == '\t' || c == '\n' || c == '\r' || c == '\x0b' || c == '\x0c'

/-- Space or tab, the class `[ \t]` used by `normalize_text`. -/
def isHTab (c : Char) : Bool :=
  c == ' ' || c == '\t'

/-- Helper for collapsing runs matched by a character class `p` to a single
space: the Boolean argument records whether the previous character was in the
run (in which case further run characters are absorbed). -/
def collapseRunAux (p : Char → Bool) : Bool → Str → Str
  | _, [] => []
  | inRun, c :: cs =>
    if p c then
      if inRun then collapseRunAux p true cs
      else ' ' :: collapseRunAux p true cs
    else c :: collapseRunAux p false cs

/-- `re.sub(r"[ \t]+", " ", s)`: collapse each maximal run of spaces/tabs to a
single space. -/
def collapseHW (s : Str) : Str :=
  collapseRunAux isHTab false s

/-- `re.sub(r"\s+", " ", s)`: collapse each maximal run of whitespace to a
single space. -/
def collapseWS (s : Str) : Str :=
  collapseRunAux pyIsSpace false s

/-- Replacement text for one maximal run of `k` newlines under
`re.sub(r"\n{3,}", "\n\n", s)`: runs of three or more become two newlines,
shorter runs are kept as they are. -/
def emitNLRun (k : Nat) : Str :=
  if 3 ≤ k then ['\n', '\n'] else List.replicate k '\n'

/-- Helper for `collapseNL3`: the counter holds the number of consecutive
newlines read so far and still pending output. -/
def collapseNL3Aux : Nat → Str → Str
  | k, [] => emitNLRun k
  | k, c :: cs =>
    if c == '\n' then collapseNL3Aux (k + 1) cs
    else emitNLRun k ++ c :: collapseNL3Aux 0 cs

/-- `re.sub(r"\n{3,}", "\n\n", s)`: collapse each maximal run of three or more
newlines to exactly two; shorter runs are kept as they are. -/
def collapseNL3 (s : Str) : Str :=
  collapseNL3Aux 0 s

/-- Python `str.strip()`: drop whitespace from both ends. -/
def pyStrip (s : Str) : Str :=
  ((s.dropWhile pyIsSpace).reverse.dropWhile pyIsSpace).reverse

/-- Embeds `normalize_text` (pipeline.py, lines 55-59): replace null bytes by a
space, collapse runs of spaces/tabs, collapse runs of three or more newlines
to two, and strip. -/
def normalize_text (s : Str) : Str :=
  pyStrip (collapseNL3 (collapseHW (s.map fun c => if c == '\x00' then ' ' else c)))

/-- Characters kept by the tokenizer regex `[^a-z0-9\s\-]` after lowering:
lowercase letters, digits and the hyphen. -/
def isTokenChar (c : Char) : Bool :=
  ('a' ≤ c && c ≤ 'z') || ('0' ≤ c && c ≤ '9') || c == '-'

/-- Helper for `pySplit`: the accumulator holds the characters of the current
word in reverse order. -/
def pySplitAux : Str → Str → List Str
  | acc, [] => if acc = [] then [] else [acc.reverse]
  | acc, c :: cs =>
    if pyIsSpace c then
      if acc = [] then pySplitAux [] cs
      else acc.reverse :: pySplitAux [] cs
    else pySplitAux (c :: acc) cs

/-- Python `str.split()` with no argument: split on whitespace runs, dropping
empty pieces. -/
def pySplit (s : Str) : List Str :=
  pySplitAux [] s

/-- Embeds `simple_tokenize` (pipeline.py, lines 61-67): lowercase, replace
every character outside `[a-z0-9\s\-]` with a space, collapse whitespace,
strip, and split on whitespace (empty input yields no tokens). -/
def simple_tokenize (s : Str) : List Str :=
  let s1 := s.map Char.toLower
  let s2 := s1.map fun c => if isTokenChar c || pyIsSpace c then c else ' '
  let s3 := pyStrip (collapseWS s2)
  if s3 = [] then [] else pySplit s3

/-- Embeds the `SourceSpan` dataclass: one page of one document. -/
structure SourceSpan where
  pdf_file : Str
  page : Nat
  text : Str
deriving DecidableEq

/-- Embeds the `Chunk` dataclass: a retrievable unit of text with its tokens. -/
structure Chunk where
  pdf_file : Str
  page : Nat
  text : Str
  tokens : List Str
deriving DecidableEq

/-- One step of the `while start < len(text)` loop of `make_chunks`
(pipeline.py, lines 117-127), restricted to the evolution of `start`:
`none` when the loop stops (either `start < len(text)` fails or the window
reached the end of the text), `some start'` when it continues with
`start' = max(0, end - overlap_chars)` (natural subtraction models the
floor at 0). -/
def chunkLoopNext (len maxc overlap start : Nat) : Option Nat :=
  if start < len then
    let e := min len (start + maxc)
    if len ≤ e then none
    else some (e - overlap)
  else none

/-- The sequence of windows `(start, end)` visited by the `make_chunks` loop,
driven by `chunkLoopNext` and bounded by explicit fuel, since the Python loop
itself does not terminate when `overlap_chars >= max_chars`. -/
def windowsAux (len maxc overlap : Nat) : Nat → Nat → List (Nat × Nat)
  | 0, _ => []
  | fuel + 1, start =>
    if start < len then
      if len ≤ min len (start + maxc) then [(start, min len (start + maxc))]
      else (start, min len (start + maxc))
        :: windowsAux len maxc overlap fuel (min len (start + maxc) - overlap)
    else []

/-- The windows visited by the `make_chunks` loop; fuel `len + 1` is enough
for every terminating run of the Python loop (the window start strictly
increases whenever `overlap_chars < max_chars`). -/
def windows (len maxc overlap : Nat) : List (Nat × Nat) :=
  windowsAux len maxc overlap (len + 1) 0

/-- The chunk emitted for one window of a long page: the slice
`text[start:end]` is re-normalized and dropped when blank
(pipeline.py, lines 119-124). -/
def chunkOfWindow (sp : SourceSpan) (w : Nat × Nat) : Option Chunk :=
  let piece := normalize_text ((sp.text.take w.2).drop w.1)
  if piece = [] then none
  else some ⟨sp.pdf_file, sp.page, piece, simple_tokenize piece⟩

/-- Embeds `make_chunks` (pipeline.py, lines 105-128): a page at or below
`max_chars` becomes a single chunk holding the whole page text; a longer page
is cut by the sliding-window loop, each window re-normalized and blank
windows dropped. -/
def make_chunks (spans : List SourceSpan) (max_chars : Nat := 1200)
    (overlap_chars : Nat := 200) : List Chunk :=
  spans.flatMap fun sp =>
    if sp.text.length ≤ max_chars then
      [⟨sp.pdf_file, sp.page, sp.text, simple_tokenize sp.text⟩]
    else
      (windows sp.text.length max_chars overlap_chars).filterMap (chunkOfWindow sp)

/-- Embeds the `SimpleRetriever` class (pipeline.py, lines 134-177); the
document-frequency table and chunk count of `__init__` are recovered as the
functions `SimpleRetriever.df` and `SimpleRetriever.N` of the stored chunks. -/
structure SimpleRetriever where
  chunks : List Chunk

/-- `self.N`: the total number of chunks. -/
def SimpleRetriever.N (r : SimpleRetriever) : Nat :=
  r.chunks.length

/-- `self.df.get(term, 0)`: the number of chunks whose token set contains
`term` (each chunk counts at most once, via `seen = set(ch.tokens)`). -/
def SimpleRetriever.df (r : SimpleRetriever) (term : Str) : Nat :=
  r.chunks.countP fun ch => decide (term ∈ ch.tokens)

/-- Embeds `SimpleRetriever.idf` (pipeline.py, lines 150-153):
`log((N + 1) / (df + 1)) + 1.0`, with `math.log` modelled as `Real.log`. -/
noncomputable def SimpleRetriever.idf (r : SimpleRetriever) (term : Str) : ℝ :=
  Real.log (((r.N : ℝ) + 1) / ((r.df term : ℝ) + 1)) + 1

/-- Embeds `SimpleRetriever.score_chunk` (pipeline.py, lines 155-167): 0 when
the query or the chunk has no tokens; otherwise for each query token present
in the chunk's term-frequency table accumulate `(1 + log(tf)) * idf(term)`
(`tf[qt]` is the number of occurrences of `qt` in `ch.tokens`). -/
noncomputable def SimpleRetriever.score_chunk (r : SimpleRetriever)
    (q_tokens : List Str) (ch : Chunk) : ℝ :=
  if q_tokens = [] ∨ ch.tokens = [] then 0
  else (q_tokens.map fun qt =>
    if qt ∈ ch.tokens then (1 + Real.log ((ch.tokens.count qt : ℝ))) * r.idf qt
    else 0).sum

/-- The `scored` list of `SimpleRetriever.search` (pipeline.py, lines
171-175): each chunk in corpus order, paired with its score, kept when the
score is strictly positive. -/
noncomputable def SimpleRetriever.keptHits (r : SimpleRetriever)
    (q_tokens : List Str) : List (ℝ × Chunk) :=
  r.chunks.filterMap fun ch =>
    let s := r.score_chunk q_tokens ch
    if 0 < s then some (s, ch) else none

/-- The comparison used to model `scored.sort(key=lambda x: x[0],
reverse=True)`: CPython's sort is stable, and a stable descending sort keeps
`a` before `b` exactly when `b`'s key is at most `a`'s key. -/
noncomputable def scoreDescBool (a b : ℝ × Chunk) : Bool :=
  decide (b.1 ≤ a.1)

/-- Embeds `SimpleRetriever.search` (pipeline.py, lines 169-177): tokenize
the query, keep positively scored chunks, sort stably by score descending,
return the first `top_k`. -/
noncomputable def SimpleRetriever.search (r : SimpleRetriever) (query : Str)
    (top_k : Nat) : List (ℝ × Chunk) :=
  ((r.keptHits (simple_tokenize query)).mergeSort scoreDescBool).take top_k

/-- Embeds `SAFETY_NOTICE` (pipeline.py, lines 29-32). -/
def SAFETY_NOTICE : Str :=
  ("Clinical decision support only (assistive, not diagnostic). "
    ++ "Final clinical decisions must be made by a licensed physician.").toList

/-- Embeds `format_citation` (pipeline.py, lines 189-191):
`"[" + pdf_file + " p." + str(page) + "]"`. -/
def format_citation (pdf_file : Str) (page : Nat) : Str :=
  '[' :: pdf_file ++ " p.".toList ++ (Nat.repr page).toList ++ [']']

/-- The heading table `H` of `build_assistive_output` (pipeline.py,
lines 204-226). -/
structure Headings where
  title : Str
  summary : Str
  redflags : Str
  ddx : Str
  workup : Str
  management : Str
  refs : Str
  notfound : Str

/-- The English heading table (pipeline.py, lines 217-226). -/
def enHeadings : Headings :=
  ⟨"Assistive answer (ONLY from uploaded sources)".toList,
   "Clinical Summary".toList,
   "Red Flags (Must-Not-Miss)".toList,
   "Differential Diagnosis (Ranked)".toList,
   "Recommended Initial Workup".toList,
   "Initial Management".toList,
   "Supporting Extracts (with citations)".toList,
   "Not found in the provided references".toList⟩

/-- The Arabic heading table (pipeline.py, lines 205-215). -/
def arHeadings : Headings :=
  ⟨"إجابة داعمة (من المصادر المرفوعة فقط)".toList,
   "ملخص سريري".toList,
   "إنذارات خطر".toList,
   "تشخيصات تفريقية (مرتبة)".toList,
   "فحوصات/تقييم أولي".toList,
   "تدبير أولي".toList,
   "المراجع (مقاطع داعمة)".toList,
   "غير موجود في المصادر المرفوعة".toList⟩

/-- Locale resolution of `build_assistive_output` (pipeline.py, lines
201-226): anything other than `"en"` or `"ar"` falls back to `"en"`. -/
def headingsFor (language : Str) : Headings :=
  let lang := if language = "en".toList ∨ language = "ar".toList
    then language else "en".toList
  if lang = "ar".toList then arHeadings else enHeadings

/-- The snippet of one hit (pipeline.py, lines 258-261): the chunk text
truncated to 400 characters, stripped, with whitespace runs collapsed. -/
def snippetOf (ch : Chunk) : Str :=
  collapseWS (pyStrip (ch.text.take 400))

/-- One extract bullet, `f"- {snippet} {format_citation(...)}"`
(pipeline.py, line 262). -/
def mkBullet (ch : Chunk) : Str :=
  "- ".toList ++ snippetOf ch ++ [' '] ++ format_citation ch.pdf_file ch.page

/-- The deduplication key `(ch.pdf_file, ch.page, ch.text[:80])`
(pipeline.py, line 254). -/
def dedupKey (ch : Chunk) : Str × Nat × Str :=
  (ch.pdf_file, ch.page, ch.text.take 80)

/-- The loop building `extracts` (pipeline.py, lines 251-262); `used`
models the `used` set of already seen deduplication keys. -/
def extractsAux : List (ℝ × Chunk) → List (Str × Nat × Str) → List Str
  | [], _ => []
  | (_, ch) :: rest, used =>
    if dedupKey ch ∈ used then extractsAux rest used
    else mkBullet ch :: extractsAux rest (dedupKey ch :: used)

/-- The full `extracts` list of `build_assistive_output`. -/
def buildExtracts (hits : List (ℝ × Chunk)) : List Str :=
  extractsAux hits []

/-- Keyword list for the red-flags category (pipeline.py, line 275). -/
def redflag_keywords : List Str :=
  ["red flag", "hypotension", "syncope", "shock", "altered", "cyanosis",
   "hemoptysis", "chest pain"].map String.toList

/-- Keyword list for the workup category (pipeline.py, line 276). -/
def workup_keywords : List Str :=
  ["ecg", "troponin", "x-ray", "ct", "d-dimer", "abg", "vbg", "labs",
   "imaging", "ultrasound", "spo2", "pulse oximetry"].map String.toList

/-- Keyword list for the management category (pipeline.py, line 277). -/
def management_keywords : List Str :=
  ["oxygen", "bronchodilator", "nebul", "antibiotic", "anticoag", "diuretic",
   "steroid", "epinephrine", "intub", "ventilation"].map String.toList

/-- Keyword list for the differential-diagnosis category
(pipeline.py, line 278). -/
def ddx_keywords : List Str :=
  ["differential", "asthma", "copd", "pneumonia", "pe", "pulmonary embol",
   "heart failure", "acs", "pneumothorax", "anxiety"].map String.toList

/-- Python `str.lower()`. -/
def lowerStr (s : Str) : Str :=
  s.map Char.toLower

/-- Python's substring test `needle in hay`. -/
def isSubstr (needle hay : Str) : Bool :=
  decide (needle <:+: hay)

/-- The loop of `pick_by_keywords` (pipeline.py, lines 265-273): scan the
extract bullets in order, append a bullet to `out` when any keyword is a
substring of the lowercased bullet, and stop as soon as `out` has reached
`max_items` entries (the length test runs after each bullet). -/
def pickAux (keywords : List Str) (max_items : Nat) : List Str → List Str → List Str
  | out, [] => out
  | out, ex :: rest =>
    let out' := if keywords.any fun k => isSubstr k (lowerStr ex) then out ++ [ex] else out
    if max_items ≤ out'.length then out' else pickAux keywords max_items out' rest

/-- Embeds `pick_by_keywords` (pipeline.py, lines 265-273). -/
def pick_by_keywords (extracts : List Str) (keywords : List Str)
    (max_items : Nat := 6) : List Str :=
  pickAux keywords max_items [] extracts

/-- Python `"\n".join(lines)`. -/
def joinNL : List Str → Str
  | [] => []
  | [l] => l
  | l :: l' :: ls => l ++ '\n' :: joinNL (l' :: ls)

/-- The fixed header of every rendered answer (pipeline.py, lines 228-234):
title, blank, question echo, blank, safety notice, blank. -/
def headerLines (question : Str) (H : Headings) : List Str :=
  ["# ".toList ++ H.title, [], "**Question:** ".toList ++ question, [],
   "**Safety notice:** ".toList ++ SAFETY_NOTICE, []]

/-- A section heading line `f"## {h}"`. -/
def sectionHeader (h : Str) : Str :=
  "## ".toList ++ h

/-- One classification section (pipeline.py, lines 284-310): heading, the
collected bullets or the locale's fallback line, then a blank line. -/
def sectionLines (hdr : Str) (items : List Str) (fallback : Str) : List Str :=
  sectionHeader hdr :: (if items = [] then [fallback] else items) ++ [[]]

/-- The line list built by `build_assistive_output`
(pipeline.py, lines 228-314). -/
def outputLines (question : Str) (hits : List (ℝ × Chunk)) (language : Str) : List Str :=
  let H := headingsFor language
  if hits.isEmpty then
    headerLines question H
      ++ [sectionHeader H.summary, "- ".toList ++ H.notfound ++ ".".toList, [],
          sectionHeader H.refs, "- ".toList ++ H.notfound ++ ".".toList]
  else
    let extracts := buildExtracts hits
    let redflags := pick_by_keywords extracts redflag_keywords 6
    let workup := pick_by_keywords extracts workup_keywords 6
    let management := pick_by_keywords extracts management_keywords 6
    let ddx := pick_by_keywords extracts ddx_keywords 6
    headerLines question H
      ++ [sectionHeader H.summary,
          ("- Summary is based on extracted passages below "
            ++ "(assistive; not a final diagnosis).").toList, []]
      ++ sectionLines H.redflags redflags
          ("- ".toList ++ H.notfound ++ " for explicit red-flag statements in top matches.".toList)
      ++ sectionLines H.ddx ddx
          ("- ".toList ++ H.notfound ++ " for explicit DDx statements in top matches.".toList)
      ++ sectionLines H.workup workup
          ("- ".toList ++ H.notfound ++ " for explicit workup statements in top matches.".toList)
      ++ sectionLines H.management management
          ("- ".toList ++ H.notfound ++ " for explicit management statements in top matches.".toList)
      ++ [sectionHeader H.refs]
      ++ extracts.take (min 10 extracts.length)

/-- Embeds `build_assistive_output` (pipeline.py, lines 193-316): the joined
rendering of `outputLines`. -/
def build_assistive_output (question : Str) (hits : List (ℝ × Chunk))
    (language : Str := "en".toList) : Str :=
  joinNL (outputLines question hits language)

/-! ## Lemmas about the retrieval engine -/

theorem df_le_N (r : SimpleRetriever) (term : Str) : r.df term ≤ r.N :=
  List.countP_le_length _

theorem idf_pos (r : SimpleRetriever) (term : Str) : 0 < r.idf term := by
  have hd : (0 : ℝ) < (r.df term : ℝ) + 1 := by positivity
  have hle : ((r.df term : ℝ) + 1) ≤ ((r.N : ℝ) + 1) := by
    have := df_le_N r term
    exact_mod_cast Nat.succ_le_succ this
  have h1 : (1 : ℝ) ≤ ((r.N : ℝ) + 1) / ((r.df term : ℝ) + 1) :=
    (one_le_div hd).mpr hle
  have h2 := Real.log_nonneg h1
  unfold SimpleRetriever.idf
  linarith

theorem score_term_pos (r : SimpleRetriever) (ch : Chunk) (qt : Str)
    (h : qt ∈ ch.tokens) :
    0 < (1 + Real.log ((ch.tokens.count qt : ℝ))) * r.idf qt := by
  have hc : 0 < ch.tokens.count qt := List.count_pos_iff.mpr h
  have hc1 : (1 : ℝ) ≤ (ch.tokens.count qt : ℝ) := by exact_mod_cast hc
  have hlog := Real.log_nonneg hc1
  have hidf := idf_pos r qt
  have : (0 : ℝ) < 1 + Real.log ((ch.tokens.count qt : ℝ)) := by linarith
  exact mul_pos this hidf

theorem score_chunk_eq_sum (r : SimpleRetriever) (q_tokens : List Str) (ch : Chunk) :
    r.score_chunk q_tokens ch
      = (q_tokens.map fun qt =>
          if qt ∈ ch.tokens then (1 + Real.log ((ch.tokens.count qt : ℝ))) * r.idf qt
          else 0).sum := by
  unfold SimpleRetriever.score_chunk
  split
  · rename_i h
    rcases h with h | h
    · subst h; simp
    · rw [h]; simp
  · rfl

theorem score_sum_nonneg (r : SimpleRetriever) (ch : Chunk) (q_tokens : List Str) :
    0 ≤ (q_tokens.map fun qt =>
        if qt ∈ ch.tokens then (1 + Real.log ((ch.tokens.count qt : ℝ))) * r.idf qt
        else 0).sum := by
  apply List.sum_nonneg
  intro x hx
  obtain ⟨qt, _, rfl⟩ := List.mem_map.mp hx
  split
  · exact le_of_lt (score_term_pos r ch qt (by assumption))
  · exact le_refl 0

theorem score_nonneg (r : SimpleRetriever) (q_tokens : List Str) (ch : Chunk) :
    0 ≤ r.score_chunk q_tokens ch := by
  rw [score_chunk_eq_sum]
  exact score_sum_nonneg r ch q_tokens

theorem score_sum_eq_zero_iff (r : SimpleRetriever) (ch : Chunk) :
    ∀ q_tokens : List Str,
      (q_tokens.map fun qt =>
          if qt ∈ ch.tokens then (1 + Real.log ((ch.tokens.count qt : ℝ))) * r.idf qt
          else 0).sum = 0
        ↔ ∀ qt ∈ q_tokens, qt ∉ ch.tokens := by
  intro q_tokens
  induction q_tokens with
  | nil => simp
  | cons qt rest ih =>
    simp only [List.map_cons, List.sum_cons, List.mem_cons]
    have hterm : 0 ≤ (if qt ∈ ch.tokens
        then (1 + Real.log ((ch.tokens.count qt : ℝ))) * r.idf qt else 0) := by
      split
      · exact le_of_lt (score_term_pos r ch qt (by assumption))
      · exact le_refl 0
    rw [add_eq_zero_iff_of_nonneg hterm (score_sum_nonneg r ch rest)]
    constructor
    · rintro ⟨h1, h2⟩ x hx
      rcases hx with rfl | hx
      · intro hmem
        rw [if_pos hmem] at h1
        exact absurd h1 (ne_of_gt (score_term_pos r ch x hmem))
      · exact ih.mp h2 x hx
    · intro h
      refine ⟨?_, ih.mpr fun x hx => h x (Or.inr hx)⟩
      rw [if_neg (h qt (Or.inl rfl))]

/-- The claim C3 theorem: for every retrieval index and term, the IDF is
`ln((N + 1) / (df + 1)) + 1`, the document frequency never exceeds the chunk
count `N` and defaults to 0 for unseen terms, the IDF is strictly positive,
and the IDF formula is strictly positive for every possible df value from 0
to N. -/
theorem idf_formula_positive (r : SimpleRetriever) (term : Str) :
    r.idf term = Real.log (((r.N : ℝ) + 1) / ((r.df term : ℝ) + 1)) + 1
    ∧ r.df term ≤ r.N
    ∧ ((∀ ch ∈ r.chunks, term ∉ ch.tokens) → r.df term = 0)
    ∧ 0 < r.idf term
    ∧ ∀ d : Nat, d ≤ r.N → 0 < Real.log (((r.N : ℝ) + 1) / ((d : ℝ) + 1)) + 1 := by
  refine ⟨rfl, df_le_N r term, ?_, idf_pos r term, ?_⟩
  · intro h
    unfold SimpleRetriever.df
    rw [List.countP_eq_zero]
    intro ch hch
    simpa using h ch hch
  intro d hd
  have hdpos : (0 : ℝ) < (d : ℝ) + 1 := by positivity
  have hle : ((d : ℝ) + 1) ≤ ((r.N : ℝ) + 1) := by exact_mod_cast Nat.succ_le_succ hd
  have h1 : (1 : ℝ) ≤ ((r.N : ℝ) + 1) / ((d : ℝ) + 1) := (one_le_div hdpos).mpr hle
  have h2 := Real.log_nonneg h1
  linarith

/-- The claim C2 theorem: the score is 0 whenever the query token sequence
or the chunk's token sequence is empty; in general it is the sum over the
query tokens (duplicates contributing independently) of
`(1 + ln(tf)) * idf(term)` for tokens present in the chunk and 0 for absent
ones; scores are non-negative; and the score is 0 exactly when no query
token occurs in the chunk's tokens. -/
theorem score_chunk_spec (r : SimpleRetriever) (q_tokens : List Str) (ch : Chunk) :
    (q_tokens = [] ∨ ch.tokens = [] → r.score_chunk q_tokens ch = 0)
    ∧ r.score_chunk q_tokens ch
      = (q_tokens.map fun qt =>
          if qt ∈ ch.tokens then (1 + Real.log ((ch.tokens.count qt : ℝ))) * r.idf qt
          else 0).sum
    ∧ 0 ≤ r.score_chunk q_tokens ch
    ∧ (r.score_chunk q_tokens ch = 0 ↔ ∀ qt ∈ q_tokens, qt ∉ ch.tokens) := by
  refine ⟨?_, score_chunk_eq_sum r q_tokens ch, score_nonneg r q_tokens ch, ?_⟩
  · intro h
    unfold SimpleRetriever.score_chunk
    rw [if_pos h]
  · rw [score_chunk_eq_sum]
    exact score_sum_eq_zero_iff r ch q_tokens

theorem filterMap_eq_filter_map {α β : Type} (f : α → Option β) (p : α → Bool)
    (g : α → β) (h : ∀ a, f a = if p a then some (g a) else none) :
    ∀ l : List α, l.filterMap f = (l.filter p).map g := by
  intro l
  induction l with
  | nil => simp
  | cons a l ih =>
    rw [List.filterMap_cons, List.filter_cons, h a]
    by_cases hp : p a = true
    · rw [if_pos hp, if_pos hp, List.map_cons, ih]
    · rw [if_neg hp, if_neg hp, ih]

theorem keptHits_eq (r : SimpleRetriever) (q_tokens : List Str) :
    r.keptHits q_tokens
      = (r.chunks.filter fun ch => !decide (r.score_chunk q_tokens ch = 0)).map
          fun ch => (r.score_chunk q_tokens ch, ch) := by
  unfold SimpleRetriever.keptHits
  apply filterMap_eq_filter_map
  intro ch
  by_cases hz : r.score_chunk q_tokens ch = 0
  · have : ¬ 0 < r.score_chunk q_tokens ch := by rw [hz]; exact lt_irrefl 0
    simp [this, hz]
  · have : 0 < r.score_chunk q_tokens ch :=
      lt_of_le_of_ne (score_nonneg r q_tokens ch) (Ne.symm hz)
    simp [this, hz]

theorem scoreDescBool_trans (a b c : ℝ × Chunk) (h1 : scoreDescBool a b = true)
    (h2 : scoreDescBool b c = true) : scoreDescBool a c = true := by
  simp only [scoreDescBool, decide_eq_true_eq] at *
  exact le_trans h2 h1

theorem scoreDescBool_total (a b : ℝ × Chunk) :
    (scoreDescBool a b || scoreDescBool b a) = true := by
  simp only [scoreDescBool, Bool.or_eq_true, decide_eq_true_eq]
  exact le_total b.1 a.1

/-- The claim C1 theorem: `search` tokenizes the query, pairs exactly the
chunks of nonzero score (in corpus order) with their scores, sorts them by
score in descending order — stably, in the sense that any descending-sorted
sublist of the kept list is still a sublist of the sorted list, so equal
scores keep corpus insertion order — and returns the first `top_k` of the
sorted list. -/
theorem search_spec (r : SimpleRetriever) (query : Str) (top_k : Nat) :
    ∃ l : List (ℝ × Chunk),
      r.search query top_k = l.take top_k
      ∧ l.Perm ((r.chunks.filter fun ch =>
            !decide (r.score_chunk (simple_tokenize query) ch = 0)).map
            fun ch => (r.score_chunk (simple_tokenize query) ch, ch))
      ∧ l.Pairwise (fun a b => b.1 ≤ a.1)
      ∧ ∀ c : List (ℝ × Chunk), c.Pairwise (fun a b => b.1 ≤ a.1)
          → c.Sublist (r.keptHits (simple_tokenize query)) → c.Sublist l := by
  refine ⟨(r.keptHits (simple_tokenize query)).mergeSort scoreDescBool, rfl, ?_, ?_, ?_⟩
  · rw [← keptHits_eq]
    exact List.mergeSort_perm _ _
  · have hs := List.sorted_mergeSort scoreDescBool_trans scoreDescBool_total
      (r.keptHits (simple_tokenize query))
    exact hs.imp fun h => by simpa [scoreDescBool, decide_eq_true_eq] using h
  · intro c hc hsub
    exact List.sublist_mergeSort scoreDescBool_trans scoreDescBool_total
      (hc.imp fun h => by simpa [scoreDescBool, decide_eq_true_eq] using h) hsub

/-! ## Lemmas about the chunker windows -/

theorem windowsAux_head (len maxc overlap : Nat) (fuel start : Nat)
    (h : start < len) (hf : 0 < fuel) :
    ∃ tl, windowsAux len maxc overlap fuel start
        = (start, min len (start + maxc)) :: tl := by
  cases fuel with
  | zero => exact absurd hf (lt_irrefl 0)
  | succ f =>
    simp only [windowsAux]
    rw [if_pos h]
    by_cases he : len ≤ min len (start + maxc)
    · rw [if_pos he]; exact ⟨[], rfl⟩
    · rw [if_neg he]; exact ⟨_, rfl⟩

theorem windowsAux_cover (len maxc overlap : Nat) (hov : overlap < maxc) :
    ∀ fuel start : Nat, len ≤ fuel + start →
      ∀ i, start ≤ i → i < len →
        ∃ w ∈ windowsAux len maxc overlap fuel start, w.1 ≤ i ∧ i < w.2 := by
  intro fuel
  induction fuel with
  | zero => intro start hfs i hsi hil; omega
  | succ f ih =>
    intro start hfs i hsi hil
    have hstart : start < len := Nat.lt_of_le_of_lt hsi hil
    by_cases he : len ≤ min len (start + maxc)
    · have heq : windowsAux len maxc overlap (f + 1) start
          = [(start, min len (start + maxc))] := by
        simp only [windowsAux]
        rw [if_pos hstart, if_pos he]
      refine ⟨(start, min len (start + maxc)), ?_, hsi, ?_⟩
      · rw [heq]; exact List.mem_singleton.mpr rfl
      · exact Nat.lt_of_lt_of_le hil he
    · have heq : windowsAux len maxc overlap (f + 1) start
          = (start, min len (start + maxc))
            :: windowsAux len maxc overlap f (min len (start + maxc) - overlap) := by
        simp only [windowsAux]
        rw [if_pos hstart, if_neg he]
      have hmin : min len (start + maxc) = start + maxc := by omega
      by_cases hie : i < start + maxc
      · refine ⟨(start, min len (start + maxc)), ?_, hsi, by omega⟩
        rw [heq]; exact List.mem_cons_self _ _
      · obtain ⟨w, hw, hwi⟩ :=
          ih (min len (start + maxc) - overlap) (by omega) i (by omega) hil
        exact ⟨w, by rw [heq]; exact List.mem_cons_of_mem _ hw, hwi⟩

theorem windowsAux_chain (len maxc overlap : Nat) (hov : overlap < maxc) :
    ∀ fuel start : Nat, len ≤ fuel + start →
      List.Chain' (fun w w' : Nat × Nat => w'.1 + overlap ≤ w.2)
        (windowsAux len maxc overlap fuel start) := by
  intro fuel
  induction fuel with
  | zero => intro start h; simp [windowsAux]
  | succ f ih =>
    intro start h
    by_cases hstart : start < len
    · by_cases he : len ≤ min len (start + maxc)
      · have heq : windowsAux len maxc overlap (f + 1) start
            = [(start, min len (start + maxc))] := by
          simp only [windowsAux]; rw [if_pos hstart, if_pos he]
        rw [heq]; exact List.chain'_singleton _
      · have heq : windowsAux len maxc overlap (f + 1) start
            = (start, min len (start + maxc))
              :: windowsAux len maxc overlap f (min len (start + maxc) - overlap) := by
          simp only [windowsAux]; rw [if_pos hstart, if_neg he]
        have hmin : min len (start + maxc) = start + maxc := by omega
        rw [heq, List.chain'_cons']
        constructor
        · intro b hb
          have hstart' : min len (start + maxc) - overlap < len := by omega
          have hf : 0 < f := by omega
          obtain ⟨tl, htl⟩ :=
            windowsAux_head len maxc overlap f (min len (start + maxc) - overlap) hstart' hf
          rw [htl] at hb
          simp only [List.head?_cons, Option.mem_def, Option.some_inj] at hb
          subst hb
          simp only
          omega
        · exact ih _ (by omega)
    · simp [windowsAux, hstart]

/-- The claim C4 counterexample: a page of 1400 characters does not always
yield exactly two chunks — for a page of 1400 blanks both windows normalize
to the empty text and are dropped, so `make_chunks` emits no chunk at all. -/
theorem make_chunks_1400_blank_counterexample :
    (⟨"blank.pdf".toList, 1, List.replicate 1400 ' '⟩ : SourceSpan).text.length = 1400
    ∧ make_chunks [⟨"blank.pdf".toList, 1, List.replicate 1400 ' '⟩] 1200 200 = [] := by
  constructor
  · simp
  · decide

/-- The claim C4 theorem (amended): a span at or below `max_chars` yields
exactly one chunk carrying the whole page text; the sliding pass over a page
of 1400 characters with `max_chars = 1200`, `overlap_chars = 200` visits
exactly the windows `[0, 1200)` and `[1000, 1400)`; and such a page yields
precisely the chunks of those two windows, each emitted unless its
re-normalized text is blank. -/
theorem make_chunks_short_and_split :
    (∀ (sp : SourceSpan) (maxc overlap : Nat), sp.text.length ≤ maxc →
        make_chunks [sp] maxc overlap
          = [⟨sp.pdf_file, sp.page, sp.text, simple_tokenize sp.text⟩])
    ∧ windows 1400 1200 200 = [(0, 1200), (1000, 1400)]
    ∧ ∀ sp : SourceSpan, sp.text.length = 1400 →
        make_chunks [sp] 1200 200
          = (chunkOfWindow sp (0, 1200)).toList
            ++ (chunkOfWindow sp (1000, 1400)).toList := by
  refine ⟨?_, by decide, ?_⟩
  · intro sp maxc overlap h
    simp [make_chunks, h]
  · intro sp h
    have hgt : ¬ sp.text.length ≤ 1200 := by omega
    simp only [make_chunks, List.flatMap_cons, List.flatMap_nil, List.append_nil]
    rw [if_neg hgt, h]
    have hw : windows 1400 1200 200 = [(0, 1200), (1000, 1400)] := by decide
    rw [hw]
    cases h1 : chunkOfWindow sp (0, 1200) <;> cases h2 : chunkOfWindow sp (1000, 1400) <;>
      simp [List.filterMap_cons, h1, h2]

/-- Witness for the amended C4 theorem at a concrete page of 1400 letters. -/
theorem make_chunks_short_and_split_witness :
    make_chunks [⟨"w.pdf".toList, 1, List.replicate 1400 'a'⟩] 1200 200
      = (chunkOfWindow ⟨"w.pdf".toList, 1, List.replicate 1400 'a'⟩ (0, 1200)).toList
        ++ (chunkOfWindow ⟨"w.pdf".toList, 1, List.replicate 1400 'a'⟩ (1000, 1400)).toList :=
  make_chunks_short_and_split.2.2 _ (by simp)

/-- The claim C5 counterexample: a span of 1400 blanks exceeds
`max_chars = 1200` and has character offsets (its length is positive), yet
`make_chunks` emits no chunk at all, so no character offset of the original
text is contained in any emitted chunk. -/
theorem coverage_counterexample :
    1200 < (⟨"gap.pdf".toList, 3, List.replicate 1400 ' '⟩ : SourceSpan).text.length
    ∧ 0 < (⟨"gap.pdf".toList, 3, List.replicate 1400 ' '⟩ : SourceSpan).text.length
    ∧ make_chunks [⟨"gap.pdf".toList, 3, List.replicate 1400 ' '⟩] 1200 200 = [] := by
  refine ⟨by simp, by simp, by decide⟩

/-- The claim C5 theorem (amended): whenever `overlap_chars < max_chars`,
every character offset of a page's text is contained in at least one window
of the sliding pass; consecutive windows satisfy
`start_of_window_succ + overlap_chars ≤ end_of_window` (the next window starts
no later than the previous end minus the overlap); and for a page longer than
`max_chars` the emitted chunks are exactly the non-blank re-normalized
windows, in window order. -/
theorem windows_coverage (len maxc overlap : Nat) (hov : overlap < maxc) :
    (∀ i, i < len → ∃ w ∈ windows len maxc overlap, w.1 ≤ i ∧ i < w.2)
    ∧ List.Chain' (fun w w' : Nat × Nat => w'.1 + overlap ≤ w.2)
        (windows len maxc overlap)
    ∧ ∀ sp : SourceSpan, maxc < sp.text.length →
        make_chunks [sp] maxc overlap
          = (windows sp.text.length maxc overlap).filterMap (chunkOfWindow sp) := by
  refine ⟨?_, ?_, ?_⟩
  · intro i hil
    exact windowsAux_cover len maxc overlap hov (len + 1) 0 (by omega) i (Nat.zero_le i) hil
  · exact windowsAux_chain len maxc overlap hov (len + 1) 0 (by omega)
  · intro sp hsp
    simp [make_chunks, Nat.not_le.mpr hsp]

/-- Witness for the amended C5 theorem on a concrete page of 1400 characters
with the default parameters. -/
theorem windows_coverage_witness :
    (200 : Nat) < 1200
    ∧ ∃ w ∈ windows 1400 1200 200, w.1 ≤ 1300 ∧ 1300 < w.2 :=
  ⟨by decide, (windows_coverage 1400 1200 200 (by decide)).1 1300 (by decide)⟩

/-- The claim C6 theorem: the `make_chunks` loop does NOT terminate on every
input.  With `max_chars = 1` and `overlap_chars = 1` on a text of length 2,
one loop iteration maps window start 0 back to start 0 (the window never
advances), and the visited windows are `(0, 1)` repeated without bound: for
every fuel the fuel-bounded window list is `fuel` copies of `(0, 1)`. -/
theorem chunk_loop_no_advance :
    chunkLoopNext 2 1 1 0 = some 0
    ∧ ∀ fuel, windowsAux 2 1 1 fuel 0 = List.replicate fuel (0, 1) := by
  refine ⟨by decide, ?_⟩
  intro fuel
  induction fuel with
  | zero => rfl
  | succ n ih => norm_num [windowsAux, ih, List.replicate_succ]

/-! ## Lemmas about the answer composer -/

/-- The chunk of the C7 counterexample: harmless text from a file whose name
contains the workup keyword `ct`. -/
def ctChunk : Chunk :=
  ⟨"CT.pdf".toList, 1, "hello world".toList, simple_tokenize "hello world".toList⟩

/-- The claim C7 counterexample: the bullet built from `ctChunk` is collected
into the workup category although no workup keyword occurs in the lowercased
snippet text — the match is run against the whole bullet line, and the `ct`
of the filename inside the citation marker matches. -/
theorem classification_counterexample :
    pick_by_keywords (buildExtracts [((1 : ℝ), ctChunk)]) workup_keywords 6
        = [mkBullet ctChunk]
    ∧ workup_keywords.all
        (fun k => !(isSubstr k (lowerStr (snippetOf ctChunk)))) = true := by
  constructor
  · decide
  · decide

theorem pickAux_spec (keywords : List Str) (maxI : Nat) :
    ∀ (l : List Str) (out : List Str), out.length < maxI →
      pickAux keywords maxI out l
        = out ++ (l.filter fun ex => keywords.any fun k =>
            isSubstr k (lowerStr ex)).take (maxI - out.length) := by
  intro l
  induction l with
  | nil => intro out h; simp [pickAux]
  | cons ex rest ih =>
    intro out h
    simp only [pickAux, List.filter_cons]
    by_cases hm : (keywords.any fun k => isSubstr k (lowerStr ex)) = true
    · rw [if_pos hm, if_pos hm]
      by_cases hstop : maxI ≤ (out ++ [ex]).length
      · rw [if_pos hstop]
        have hlen : maxI - out.length = 1 := by
          simp only [List.length_append, List.length_singleton] at hstop
          omega
        rw [hlen]
        simp
      · rw [if_neg hstop]
        have hlt : (out ++ [ex]).length < maxI := by
          simp only [List.length_append, List.length_singleton] at hstop ⊢
          omega
        rw [ih _ hlt]
        have h1 : maxI - out.length = (maxI - (out ++ [ex]).length) + 1 := by
          simp only [List.length_append, List.length_singleton]
          simp only [List.length_append, List.length_singleton] at hstop
          omega
        rw [h1, List.take_succ_cons]
        simp [List.append_assoc]
    · rw [if_neg hm, if_neg hm]
      rw [if_neg (Nat.not_le.mpr h)]
      exact ih _ h

/-- The claim C7 theorem (amended): each category's collection is the list of
extract bullets whose lowercased full line (snippet text together with its
citation marker) contains some keyword of the category as a substring, in
snippet order, truncated to the cap of 6; each category is computed
independently of the others, so one bullet may appear in several. -/
theorem pick_by_keywords_spec (extracts keywords : List Str) :
    pick_by_keywords extracts keywords 6
      = (extracts.filter fun ex => keywords.any fun k =>
          isSubstr k (lowerStr ex)).take 6 := by
  have h := pickAux_spec keywords 6 extracts [] (by simp)
  simpa [pick_by_keywords] using h

theorem outputLines_nil (question language : Str) :
    outputLines question [] language
      = headerLines question (headingsFor language)
        ++ [sectionHeader (headingsFor language).summary,
            "- ".toList ++ (headingsFor language).notfound ++ ".".toList, [],
            sectionHeader (headingsFor language).refs,
            "- ".toList ++ (headingsFor language).notfound ++ ".".toList] := rfl

theorem joinNL_infix : ∀ (ls : List Str) (l : Str), l ∈ ls → l <:+: joinNL ls := by
  intro ls
  induction ls with
  | nil => intro l h; simp at h
  | cons x ls ih =>
    intro l h
    cases ls with
    | nil =>
      rcases List.mem_singleton.mp h with rfl
      exact List.infix_refl l
    | cons y ys =>
      rcases List.mem_cons.mp h with rfl | h'
      · exact ⟨[], '\n' :: joinNL (y :: ys), by simp [joinNL]⟩
      · have hsuf : joinNL (y :: ys) <:+ joinNL (l :: y :: ys).tail ++ joinNL (y :: ys) :=
          List.suffix_append _ _
        refine List.IsInfix.trans (ih l h') ?_
        exact (List.suffix_append (x ++ ['\n']) (joinNL (y :: ys))).isInfix.trans
          (by simp [joinNL, List.append_assoc])

/-- The claim C8 theorem: with an empty hit list the composed answer consists
of the fixed header followed by exactly a summary section and a references
section, each holding the locale's "not found" bullet, and for the default
locale the literal string "Not found in the provided references" occurs in
the rendered output. -/
theorem empty_hits_fallback (question language : Str) :
    outputLines question [] language
      = headerLines question (headingsFor language)
        ++ [sectionHeader (headingsFor language).summary,
            "- ".toList ++ (headingsFor language).notfound ++ ".".toList, [],
            sectionHeader (headingsFor language).refs,
            "- ".toList ++ (headingsFor language).notfound ++ ".".toList]
    ∧ "Not found in the provided references".toList
        <:+: build_assistive_output question [] ("en".toList) := by
  refine ⟨outputLines_nil question language, ?_⟩
  have hline : ("- ".toList ++ (headingsFor ("en".toList)).notfound ++ ".".toList)
      ∈ outputLines question [] ("en".toList) := by
    rw [outputLines_nil]
    simp [headerLines]
  have h2 := joinNL_infix _ _ hline
  refine List.IsInfix.trans ?_ h2
  exact ⟨"- ".toList, ".".toList, rfl⟩

theorem extractsAux_mem :
    ∀ (hits : List (ℝ × Chunk)) (used : List (Str × Nat × Str)) (ex : Str),
      ex ∈ extractsAux hits used → ∃ s ch, (s, ch) ∈ hits ∧ ex = mkBullet ch := by
  intro hits
  induction hits with
  | nil => intro used ex h; simp [extractsAux] at h
  | cons hit rest ih =>
    intro used ex h
    obtain ⟨s, ch⟩ := hit
    simp only [extractsAux] at h
    by_cases hk : dedupKey ch ∈ used
    · rw [if_pos hk] at h
      obtain ⟨s', ch', hm, he⟩ := ih _ _ h
      exact ⟨s', ch', List.mem_cons_of_mem _ hm, he⟩
    · rw [if_neg hk] at h
      rcases List.mem_cons.mp h with rfl | h'
      · exact ⟨s, ch, List.mem_cons_self _ _, rfl⟩
      · obtain ⟨s', ch', hm, he⟩ := ih _ _ h'
        exact ⟨s', ch', List.mem_cons_of_mem _ hm, he⟩

/-- The claim C9 theorem: every bullet of the references section (the first
`min(10, len)` deduplicated extracts) is the bullet of some retrieved hit's
chunk and ends with the citation marker built from exactly that chunk's
document and page. -/
theorem references_citation_fidelity (hits : List (ℝ × Chunk)) (ex : Str)
    (hex : ex ∈ (buildExtracts hits).take (min 10 (buildExtracts hits).length)) :
    ∃ s ch, (s, ch) ∈ hits ∧ ex = mkBullet ch
      ∧ format_citation ch.pdf_file ch.page <:+ ex := by
  have hex' : ex ∈ buildExtracts hits := (List.take_sublist _ _).subset hex
  obtain ⟨s, ch, hm, he⟩ := extractsAux_mem hits [] ex hex'
  refine ⟨s, ch, hm, he, ?_⟩
  rw [he]
  exact ⟨"- ".toList ++ snippetOf ch ++ [' '], by simp [mkBullet, List.append_assoc]⟩

/-- The chunk of the C9 witness. -/
def witChunk : Chunk :=
  ⟨"a.pdf".toList, 2, "fever cough".toList, simple_tokenize "fever cough".toList⟩

/-- Witness for the C9 theorem at a concrete one-hit list. -/
theorem references_citation_fidelity_witness :
    mkBullet witChunk
        ∈ (buildExtracts [((1 : ℝ), witChunk)]).take
            (min 10 (buildExtracts [((1 : ℝ), witChunk)]).length)
    ∧ ∃ s ch, (s, ch) ∈ [((1 : ℝ), witChunk)] ∧ mkBullet witChunk = mkBullet ch
        ∧ format_citation ch.pdf_file ch.page <:+ mkBullet witChunk :=
  ⟨by decide, references_citation_fidelity [((1 : ℝ), witChunk)] (mkBullet witChunk) (by decide)⟩

theorem joinNL_cons (l : Str) (ls : List Str) (h : ls ≠ []) :
    joinNL (l :: ls) = l ++ '\n' :: joinNL ls := by
  cases ls with
  | nil => exact absurd rfl h
  | cons y ys => rfl

/-- The claim C10 theorem: for every input, including an empty hit list, the
rendered answer starts with the title heading, a question-echo line carrying
the query, and a safety-notice line carrying the full SAFETY_NOTICE, in that
fixed order, before any other section. -/
theorem output_header_first (question : Str) (hits : List (ℝ × Chunk)) (language : Str) :
    (∃ rest, outputLines question hits language
        = ("# ".toList ++ (headingsFor language).title) :: []
          :: ("**Question:** ".toList ++ question) :: []
          :: ("**Safety notice:** ".toList ++ SAFETY_NOTICE) :: [] :: rest)
    ∧ ("# ".toList ++ (headingsFor language).title
        ++ '\n' :: '\n' :: ("**Question:** ".toList ++ question)
        ++ '\n' :: '\n' :: ("**Safety notice:** ".toList ++ SAFETY_NOTICE)
        ++ ['\n', '\n'])
      <+: build_assistive_output question hits language := by
  have hshape : ∃ rest, rest ≠ [] ∧ outputLines question hits language
      = headerLines question (headingsFor language) ++ rest := by
    cases hits with
    | nil => exact ⟨_, List.cons_ne_nil _ _, outputLines_nil question language⟩
    | cons hit hits' => exact ⟨_, List.cons_ne_nil _ _, rfl⟩
  obtain ⟨rest, hne, heq⟩ := hshape
  constructor
  · exact ⟨rest, by rw [heq]; rfl⟩
  · refine ⟨joinNL rest, ?_⟩
    have hout : build_assistive_output question hits language
        = joinNL (outputLines question hits language) := rfl
    rw [hout, heq, headerLines]
    simp only [List.cons_append, List.nil_append]
    rw [joinNL_cons _ _ (List.cons_ne_nil _ _), joinNL_cons _ _ (List.cons_ne_nil _ _),
      joinNL_cons _ _ (List.cons_ne_nil _ _), joinNL_cons _ _ (List.cons_ne_nil _ _),
      joinNL_cons _ _ (List.cons_ne_nil _ _), joinNL_cons _ _ hne]
    simp [List.append_assoc]



/-! ## Evaluation checks of the embedded text utilities -/

theorem simple_tokenize_eval :
    simple_tokenize "Hello, World! x-ray 42".toList
      = ["hello".toList, "world".toList, "x-ray".toList, "42".toList] := by decide

theorem simple_tokenize_punct_eval : simple_tokenize "???".toList = [] := by decide

theorem normalize_text_eval :
    normalize_text "  a \t b\n\n\n\nc  ".toList = "a b\n\nc".toList := by decide
